import Mathlib

/-!
Verification of the multi-model persistence and prediction-assembly core of
`src/components/python_components/models/svm.py` (the stricter variant that the
design notes designate as the design of record).

Shallow embedding conventions:
  * A deserialized store record is either a fitted pipeline (an sklearn
    `Pipeline` whose `predict` maps each text row to a label value) or some
    other deserialized object such as a plain string (`Record.other`).
  * The model store file is a list of record slots; a slot either deserializes
    to a `Record` or makes `pickle.load` raise a non-EOF deserialization error
    (`StoreRecord.corrupt`).
  * DataFrames are a text column (`Premise`) plus named label columns.
  * The external ML library is opaque: `fit` and `f1_score` are oracle
    parameters, as the spec treats them ("fit(X, y)", "predict(X)",
    "score(y_true, y_pred)").  A fitted pipeline predicts row-by-row, which is
    the row-alignment guarantee the spec attributes to the library interface.
-/

/-- A deserialized object read back from the model store via pickle: either a
fitted sklearn `Pipeline` (its predict behaviour on one text row), or any other
object, e.g. a plain string pickled into the file. -/
inductive Record where
  | pipeline : (String → Int) → Record
  | other : String → Record

/-- One slot of the model store file: a slot that `pickle.load` deserializes to
an object, or bytes on which `pickle.load` raises a non-EOF error. -/
inductive StoreRecord where
  | obj : Record → StoreRecord
  | corrupt : StoreRecord

/-- The model store file content: a headerless back-to-back concatenation of
serialized records, no count or label metadata. -/
abbrev ModelFile := List StoreRecord

/-- File open modes used by the module: `"rb"` for prediction, `"wb"` for
training. -/
inductive Mode where
  | rb : Mode
  | wb : Mode

/-- Opening the store file: `"rb"` leaves the content untouched, `"wb"`
truncates it (fresh run, not append-to-existing across runs). -/
def openFile : Mode → ModelFile → ModelFile
  | Mode.rb, f => f
  | Mode.wb, _ => []

/-- Predictions of a loaded record on a text column.  For a fitted pipeline
this is `svm.predict(input_vector)`, applied row by row; the guarded source
never calls `predict` on a non-pipeline record, so that branch is inert. -/
def Record.predictOn : Record → List String → List Int
  | Record.pipeline f, xs => xs.map f
  | Record.other _, _ => []

/-- Outcome of exhausting the generator made by `load_all_svms`: the records it
yielded, together with whether it terminated normally at end-of-file (`done`)
or raised a non-EOF deserialization error after those yields (`error`). -/
inductive GenResult where
  | done : List Record → GenResult
  | error : List Record → GenResult

/-- The records a generator run yielded, regardless of how it terminated. -/
def GenResult.yields : GenResult → List Record
  | GenResult.done l => l
  | GenResult.error l => l

/-- Embedding of `load_all_svms`: repeatedly `pickle.load` from the open file;
`EOFError` (end of the slot list) breaks the loop normally, any other
deserialization failure propagates after the yields made so far. -/
def load_all_svms : ModelFile → GenResult
  | [] => GenResult.done []
  | StoreRecord.corrupt :: _ => GenResult.error []
  | StoreRecord.obj r :: rest =>
    match load_all_svms rest with
    | GenResult.done l => GenResult.done (r :: l)
    | GenResult.error l => GenResult.error (r :: l)

/-- Embedding of `pickle.dump(svm, f)` on a file opened for writing: appends
one self-delimiting record to the stream. -/
def pickleDump (f : ModelFile) (r : Record) : ModelFile :=
  f ++ [StoreRecord.obj r]

/-- Writing a sequence of models, one `pickle.dump` each, to a freshly opened
(`"wb"`, truncating) store file. -/
def dumpAll (models : List Record) (file : ModelFile) : ModelFile :=
  models.foldl pickleDump (openFile Mode.wb file)

/-- A pandas DataFrame as this module uses it: the `'Premise'` text column and
the named label columns. -/
structure DataFrame where
  premise : List String
  col : String → List Int

/-- Python-dict insertion `d[k] = v`: updates the value in place if the key is
present, otherwise appends the new pair (dicts preserve insertion order). -/
def dictInsert {α : Type} : List (String × α) → String → α → List (String × α)
  | [], k, v => [(k, v)]
  | (k2, v2) :: rest, k, v =>
    if k2 = k then (k, v) :: rest else (k2, v2) :: dictInsert rest k v

/-- Python-dict lookup `d[k]` as an option. -/
def dictLookup {α : Type} : List (String × α) → String → Option α
  | [], _ => none
  | (k2, v2) :: rest, k => if k2 = k then some v2 else dictLookup rest k

/-- Outcome of `predict_svm`: the assembled prediction table
(`pd.DataFrame(df_model_predictions, columns=labels)`, one entry per requested
label, `none` standing for a label column the dict never received, which pandas
renders as NaN), or one of the exceptions the body can raise. -/
inductive PredictResult where
  | ok : List (String × Option (List Int)) → PredictResult
  | pickleError : PredictResult
  | unpicklingError : PredictResult
  | indexError : PredictResult

/-- The `for i, svm in enumerate(load_all_svms(model_file))` loop of
`predict_svm`: a corrupt slot surfaces the unpickling error; a non-pipeline
record raises `PickleError` (the `isinstance` guard runs first); otherwise the
model predicts on the text column and the result is stored under `labels[i]`,
which raises `IndexError` when `i` is out of range.  At the end of the store
the dict is assembled into the output table in `labels` order. -/
def predictLoop (input : List String) (labels : List String) :
    ModelFile → Nat → List (String × List Int) → PredictResult
  | [], _, d => PredictResult.ok (labels.map (fun l => (l, dictLookup d l)))
  | StoreRecord.corrupt :: _, _, _ => PredictResult.unpicklingError
  | StoreRecord.obj r :: rest, i, d =>
    match r with
    | Record.other _ => PredictResult.pickleError
    | Record.pipeline f =>
      if h : i < labels.length then
        predictLoop input labels rest (i + 1)
          (dictInsert d (labels.get ⟨i, h⟩) (input.map f))
      else PredictResult.indexError

/-- Embedding of `predict_svm(dataframe, labels, model_file)`: opens the store
read-only, drives the codec's lazy sequence, and returns the outcome together
with the store file content after the call. -/
def predict_svm (dataframe : DataFrame) (labels : List String)
    (model_file : ModelFile) : PredictResult × ModelFile :=
  let f := openFile Mode.rb model_file
  (predictLoop dataframe.premise labels f 0 [], f)

/-- A store holding exactly the given fitted pipelines, in order. -/
def pipeStore (fs : List (String → Int)) : ModelFile :=
  fs.map (fun f => StoreRecord.obj (Record.pipeline f))

/-- Python's `round(x, 2)` on the scores handled by this module: round to two
decimal places. -/
def round2 (q : Rat) : Rat :=
  (round (q * 100) : Int) / 100

/-- `np.mean` over the listed values. -/
def npMean (l : List Rat) : Rat :=
  l.sum / l.length

/-- The per-label loop of `train_svm`: for each label, fit a fresh pipeline on
the train text column against that label's column, optionally score it on the
validation partition (F1 rounded to 2 decimals, recorded under the label), and
`pickle.dump` the fitted pipeline to the store. -/
def trainLoop (fit : List String → List Int → (String → Int))
    (f1_score : List Int → List Int → Rat)
    (train_dataframe : DataFrame) (test_dataframe : Option DataFrame) :
    List String → List (String × Rat) → ModelFile →
      List (String × Rat) × ModelFile
  | [], scores, f => (scores, f)
  | label :: rest, scores, f =>
    let svm := fit train_dataframe.premise (train_dataframe.col label)
    let scores2 :=
      match test_dataframe with
      | some t => dictInsert scores label
          (round2 (f1_score (t.col label) (t.premise.map svm)))
      | none => scores
    trainLoop fit f1_score train_dataframe test_dataframe rest scores2
      (pickleDump f (Record.pipeline svm))

/-- Embedding of `train_svm(train_dataframe, labels, model_file,
test_dataframe)`.  `fit` and `f1_score` are the opaque library capabilities.
Returns the Score Report (`none` when no validation partition is supplied —
the function falls off its end) and the store file content written. -/
def train_svm (fit : List String → List Int → (String → Int))
    (f1_score : List Int → List Int → Rat)
    (train_dataframe : DataFrame) (labels : List String)
    (model_file : ModelFile) (test_dataframe : Option DataFrame) :
    Option (List (String × Rat)) × ModelFile :=
  let f0 := openFile Mode.wb model_file
  let r := trainLoop fit f1_score train_dataframe test_dataframe labels [] f0
  match test_dataframe with
  | some _ =>
    (some (dictInsert r.1 "avg-f1-score" (round2 (npMean (r.1.map Prod.snd)))),
      r.2)
  | none => (none, r.2)

/-! Basic facts about the codec. -/

theorem load_all_svms_objs (recs : List Record) :
    load_all_svms (recs.map StoreRecord.obj) = GenResult.done recs := by
  induction recs with
  | nil => rfl
  | cons r rest ih => simp [load_all_svms, ih]

theorem load_all_svms_corrupt (recs : List Record) (rest : ModelFile) :
    load_all_svms (recs.map StoreRecord.obj ++ StoreRecord.corrupt :: rest) =
      GenResult.error recs := by
  induction recs with
  | nil => rfl
  | cons r rs ih => simp [load_all_svms, ih]

theorem dumpAll_objs (models : List Record) (file : ModelFile) :
    dumpAll models file = models.map StoreRecord.obj := by
  have key : ∀ (ms : List Record) (acc : ModelFile),
      ms.foldl pickleDump acc = acc ++ ms.map StoreRecord.obj := by
    intro ms
    induction ms with
    | nil => intro acc; simp
    | cons m rest ih => intro acc; simp [pickleDump, ih]
  simp [dumpAll, openFile, key]

/-- C7: `load_all_svms` yields records until the underlying end-of-file signal,
which terminates the sequence normally (a `done` outcome carrying every stored
record, not an error), while any non-EOF deserialization failure propagates to
the caller after the records yielded before it (an `error` outcome; the bad
slot is never silently skipped). -/
theorem claim_C7 (recs : List Record) (rest : ModelFile) :
    load_all_svms (recs.map StoreRecord.obj) = GenResult.done recs ∧
    load_all_svms (recs.map StoreRecord.obj ++ StoreRecord.corrupt :: rest) =
      GenResult.error recs := by
  exact ⟨load_all_svms_objs recs, load_all_svms_corrupt recs rest⟩

/-- C2: writing any sequence of K models to a fresh store with one
`pickle.dump` each and reading the store back with `load_all_svms` terminates
normally with exactly those K objects, in write order, each equal to — hence
behaviorally identical on any probe input to — the pre-write object. -/
theorem claim_C2 (file : ModelFile) (models : List Record)
    (probe : List String) :
    load_all_svms (dumpAll models file) = GenResult.done models ∧
    (load_all_svms (dumpAll models file)).yields.length = models.length ∧
    (load_all_svms (dumpAll models file)).yields.map
        (fun r => r.predictOn probe) =
      models.map (fun r => r.predictOn probe) := by
  rw [dumpAll_objs, load_all_svms_objs]
  exact ⟨rfl, rfl, rfl⟩

/-- C9: prediction is deterministic and leaves the store untouched — the store
file content after `predict_svm` is the content before (the store is opened
read-only), and a second run on that resulting store returns the same table as
the first run. -/
theorem claim_C9 (dataframe : DataFrame) (labels : List String)
    (model_file : ModelFile) :
    (predict_svm dataframe labels model_file).2 = model_file ∧
    (predict_svm dataframe labels
        ((predict_svm dataframe labels model_file).2)).1 =
      (predict_svm dataframe labels model_file).1 := by
  exact ⟨rfl, rfl⟩


/-! Dictionary lemmas. -/

theorem dictLookup_dictInsert_self {α : Type} (d : List (String × α))
    (k : String) (v : α) : dictLookup (dictInsert d k v) k = some v := by
  induction d with
  | nil => simp [dictInsert, dictLookup]
  | cons p rest ih =>
    by_cases h : p.1 = k
    · simp [dictInsert, dictLookup, h]
    · simp [dictInsert, dictLookup, h, ih]

theorem dictLookup_dictInsert_ne {α : Type} (d : List (String × α))
    (k k2 : String) (v : α) (hne : k2 ≠ k) :
    dictLookup (dictInsert d k v) k2 = dictLookup d k2 := by
  have hkk : ¬ k = k2 := fun h => hne h.symm
  induction d with
  | nil => simp [dictInsert, dictLookup, hkk]
  | cons p rest ih =>
    by_cases h : p.1 = k
    · have hp : ¬ p.1 = k2 := by rw [h]; exact hkk
      simp [dictInsert, dictLookup, h, hkk, hp]
    · by_cases h2 : p.1 = k2
      · simp [dictInsert, dictLookup, h, h2, hne]
      · simp [dictInsert, dictLookup, h, h2, ih]

theorem dictLookup_dictInsert_cases {α : Type} (d : List (String × α))
    (k k2 : String) (v : α) :
    dictLookup (dictInsert d k v) k2 = some v ∨
      dictLookup (dictInsert d k v) k2 = dictLookup d k2 := by
  by_cases he : k2 = k
  · subst he; exact Or.inl (dictLookup_dictInsert_self d k2 v)
  · exact Or.inr (dictLookup_dictInsert_ne d k k2 v he)

theorem dictLookup_isSome_dictInsert {α : Type} (d : List (String × α))
    (k k2 : String) (v : α) (h : (dictLookup d k).isSome) :
    (dictLookup (dictInsert d k2 v) k).isSome := by
  rcases dictLookup_dictInsert_cases d k2 k v with h2 | h2 <;> simp [h2]
  exact h

theorem dictInsert_fresh {α : Type} (d : List (String × α)) (k : String)
    (v : α) (h : dictLookup d k = none) :
    dictInsert d k v = d ++ [(k, v)] := by
  induction d with
  | nil => simp [dictInsert]
  | cons p rest ih =>
    by_cases he : p.1 = k
    · simp [dictLookup, he] at h
    · simp [dictLookup, he] at h
      simp [dictInsert, he, ih h]

theorem dictLookup_append_none {α : Type} (d1 d2 : List (String × α))
    (k : String) (h : dictLookup d1 k = none) :
    dictLookup (d1 ++ d2) k = dictLookup d2 k := by
  induction d1 with
  | nil => simp
  | cons p rest ih =>
    by_cases he : p.1 = k
    · simp [dictLookup, he] at h
    · simp [dictLookup, he] at h ⊢
      exact ih h

theorem dictLookup_map_self {α : Type} (keys : List String) (g : String → α)
    (k : String) (h : k ∈ keys) :
    dictLookup (keys.map (fun l => (l, g l))) k = some (g k) := by
  induction keys with
  | nil => simp at h
  | cons l rest ih =>
    by_cases he : l = k
    · subst he; simp [dictLookup]
    · have hk : k ∈ rest := by
        rcases List.mem_cons.mp h with h1 | h1
        · exact absurd h1.symm he
        · exact h1
      simp [dictLookup, he, ih hk]

theorem dictLookup_map_none {α : Type} (keys : List String) (g : String → α)
    (k : String) (h : k ∉ keys) :
    dictLookup (keys.map (fun l => (l, g l))) k = none := by
  induction keys with
  | nil => simp [dictLookup]
  | cons l rest ih =>
    have h1 : ¬ l = k := fun hh => h (by simp [hh])
    have h2 : k ∉ rest := fun hh => h (by simp [hh])
    simp [dictLookup, h1, ih h2]

/-! The dictionary state left by the predict loop over a store of pipelines. -/

/-- The `df_model_predictions` dictionary accumulated by the loop of
`predict_svm` when it runs over a store of fitted pipelines, starting at
enumeration index `i` with dictionary `d`. -/
def buildDict (input : List String) (labels : List String) :
    List (String → Int) → Nat → List (String × List Int) →
      List (String × List Int)
  | [], _, d => d
  | f :: fs, i, d =>
    if h : i < labels.length then
      buildDict input labels fs (i + 1)
        (dictInsert d (labels.get ⟨i, h⟩) (input.map f))
    else d

theorem get_congr (labels : List String) (a b : Nat) (ha : a < labels.length)
    (hb : b < labels.length) (h : a = b) :
    labels.get ⟨a, ha⟩ = labels.get ⟨b, hb⟩ := by
  subst h; rfl

theorem predictLoop_pipes (input labels : List String) :
    ∀ (fs : List (String → Int)) (i : Nat) (d : List (String × List Int)),
      i + fs.length ≤ labels.length →
      predictLoop input labels (pipeStore fs) i d =
        PredictResult.ok (labels.map
          (fun l => (l, dictLookup (buildDict input labels fs i d) l))) := by
  intro fs
  induction fs with
  | nil => intro i d _; simp [pipeStore, predictLoop, buildDict]
  | cons f rest ih =>
    intro i d hle
    have hi : i < labels.length := by simp at hle; omega
    simp [pipeStore, predictLoop, buildDict, hi] at ih ⊢
    exact ih (i + 1) _ (by simp at hle; omega)

theorem buildDict_lookup_out (input labels : List String) :
    ∀ (fs : List (String → Int)) (i : Nat) (d : List (String × List Int))
      (k : String),
      (∀ (j : Nat) (hj : j < labels.length),
        i ≤ j → j < i + fs.length → labels.get ⟨j, hj⟩ ≠ k) →
      dictLookup (buildDict input labels fs i d) k = dictLookup d k := by
  intro fs
  induction fs with
  | nil => intro i d k _; simp [buildDict]
  | cons f rest ih =>
    intro i d k hout
    by_cases hi : i < labels.length
    · simp [buildDict, hi]
      rw [ih (i + 1) _ k (fun j hj h1 h2 => hout j hj (by omega) (by simp; omega))]
      exact dictLookup_dictInsert_ne d (labels.get ⟨i, hi⟩) k (input.map f)
        (fun hh => hout i hi (le_refl i) (by simp) hh.symm)
    · simp [buildDict, hi]

theorem buildDict_isSome_mono (input labels : List String) :
    ∀ (fs : List (String → Int)) (i : Nat) (d : List (String × List Int))
      (k : String), (dictLookup d k).isSome →
      (dictLookup (buildDict input labels fs i d) k).isSome := by
  intro fs
  induction fs with
  | nil => intro i d k h; simpa [buildDict] using h
  | cons f rest ih =>
    intro i d k h
    by_cases hi : i < labels.length
    · simp [buildDict, hi]
      exact ih (i + 1) _ k
        (dictLookup_isSome_dictInsert d k (labels.get ⟨i, hi⟩) (input.map f) h)
    · simpa [buildDict, hi] using h

theorem buildDict_covers (input labels : List String) :
    ∀ (fs : List (String → Int)) (i : Nat) (d : List (String × List Int))
      (j : Nat) (hj : j < labels.length), i ≤ j → j < i + fs.length →
      (dictLookup (buildDict input labels fs i d) (labels.get ⟨j, hj⟩)).isSome := by
  intro fs
  induction fs with
  | nil => intro i d j hj h1 h2; simp at h2; omega
  | cons f rest ih =>
    intro i d j hj h1 h2
    have hi : i < labels.length := by omega
    simp only [buildDict, hi, dif_pos]
    by_cases he : j = i
    · subst he
      exact buildDict_isSome_mono input labels rest (j + 1) _ _
        (by rw [dictLookup_dictInsert_self]; rfl)
    · exact ih (i + 1) _ j hj (by omega) (by simp at h2 ⊢; omega)

theorem buildDict_length_inv (input labels : List String) :
    ∀ (fs : List (String → Int)) (i : Nat) (d : List (String × List Int)),
      (∀ (k : String) (c : List Int), dictLookup d k = some c →
        c.length = input.length) →
      ∀ (k : String) (c : List Int),
        dictLookup (buildDict input labels fs i d) k = some c →
        c.length = input.length := by
  intro fs
  induction fs with
  | nil => intro i d hd k c h; exact hd k c (by simpa [buildDict] using h)
  | cons f rest ih =>
    intro i d hd k c h
    by_cases hi : i < labels.length
    · simp only [buildDict, hi, dif_pos] at h
      refine ih (i + 1) _ ?_ k c h
      intro k2 c2 h2
      rcases dictLookup_dictInsert_cases d (labels.get ⟨i, hi⟩) k2
          (input.map f) with hc | hc
      · rw [hc] at h2
        cases h2
        simp
      · rw [hc] at h2
        exact hd k2 c2 h2
    · exact hd k c (by simpa [buildDict, hi] using h)

theorem buildDict_get (input labels : List String) (hnd : labels.Nodup) :
    ∀ (pre : List (String → Int)) (f : String → Int)
      (suf : List (String → Int)) (i : Nat) (d : List (String × List Int))
      (hj : i + pre.length < labels.length),
      i + pre.length + suf.length + 1 ≤ labels.length →
      dictLookup (buildDict input labels (pre ++ f :: suf) i d)
        (labels.get ⟨i + pre.length, hj⟩) = some (input.map f) := by
  intro pre
  induction pre with
  | nil =>
    intro f suf i d hj hb
    have hi : i < labels.length := by simpa using hj
    have hkey : labels.get ⟨i + List.length ([] : List (String → Int)), hj⟩ =
        labels.get ⟨i, hi⟩ := get_congr labels _ i hj hi (by simp)
    rw [hkey]
    simp only [List.nil_append, buildDict, hi, dif_pos]
    rw [buildDict_lookup_out input labels suf (i + 1) _ _ ?hout]
    case hout =>
      intro j hj2 h1 h2 hcon
      have hval : j = i := congrArg Fin.val (hnd.get_inj_iff.mp hcon)
      omega
    exact dictLookup_dictInsert_self _ _ _
  | cons p rest ih =>
    intro f suf i d hj hb
    have hi : i < labels.length := by simp at hj; omega
    simp only [List.cons_append, buildDict, hi, dif_pos]
    have hj2 : (i + 1) + rest.length < labels.length := by simp at hj; omega
    have heq : labels.get ⟨i + (p :: rest).length, hj⟩ =
        labels.get ⟨(i + 1) + rest.length, hj2⟩ :=
      get_congr labels _ _ hj hj2 (by simp; omega)
    rw [heq]
    exact ih f suf (i + 1) _ hj2 (by simp at hb ⊢; omega)

/-! Predict-side behaviour on stores of pipelines. -/

theorem predictLoop_overflow (input labels : List String) :
    ∀ (fs : List (String → Int)) (i : Nat) (d : List (String × List Int)),
      labels.length < i + fs.length → i ≤ labels.length →
      predictLoop input labels (pipeStore fs) i d = PredictResult.indexError := by
  intro fs
  induction fs with
  | nil => intro i d h1 h2; simp at h1; omega
  | cons f rest ih =>
    intro i d h1 h2
    by_cases hi : i < labels.length
    · simp only [pipeStore, List.map_cons, predictLoop, hi, dif_pos]
      exact ih (i + 1) _ (by simp at h1 ⊢; omega) (by omega)
    · simp [pipeStore, predictLoop, hi]

theorem predictLoop_badRecord (input labels : List String) (s : String)
    (rest : ModelFile) :
    ∀ (fs : List (String → Int)) (i : Nat) (d : List (String × List Int)),
      i + fs.length ≤ labels.length →
      predictLoop input labels
        (pipeStore fs ++ StoreRecord.obj (Record.other s) :: rest) i d =
        PredictResult.pickleError := by
  intro fs
  induction fs with
  | nil => intro i d h; simp [pipeStore, predictLoop]
  | cons f fs2 ih =>
    intro i d h
    have hi : i < labels.length := by simp at h; omega
    simp only [pipeStore, List.map_cons, List.cons_append, predictLoop, hi,
      dif_pos]
    exact ih (i + 1) _ (by simp at h ⊢; omega)

/-- C10: when the store holds more valid models than there are labels, the
length mismatch is not tolerated — once the enumeration index reaches
`len(labels)`, the `labels[i]` lookup is out of range and `predict_svm` fails
with `IndexError` instead of returning a table. -/
theorem claim_C10 (dataframe : DataFrame) (labels : List String)
    (fs : List (String → Int)) (h : labels.length < fs.length) :
    (predict_svm dataframe labels (pipeStore fs)).1 =
      PredictResult.indexError := by
  simp only [predict_svm, openFile]
  exact predictLoop_overflow dataframe.premise labels fs 0 [] (by omega)
    (by omega)

theorem claim_C10_witness :
    (["a"] : List String).length < ([fun _ => 0, fun _ => 1] :
      List (String → Int)).length ∧
    (predict_svm ⟨["x"], fun _ => []⟩ ["a"]
        (pipeStore [fun _ => 0, fun _ => 1])).1 = PredictResult.indexError :=
  ⟨by decide, claim_C10 ⟨["x"], fun _ => []⟩ ["a"] [fun _ => 0, fun _ => 1]
    (by decide)⟩

/-- C1 as amended: if every record before the first non-model record is a
valid pipeline and that non-model record sits at store position at most
`len(labels)`, then `predict_svm` raises the dedicated untrusted-content error
(`PickleError`), returns no partial prediction table, and its outcome is
independent of everything after the bad record — records after the bad one are
never processed. -/
theorem claim_C1 (dataframe : DataFrame) (labels : List String)
    (fs : List (String → Int)) (s : String) (rest : ModelFile)
    (h : fs.length ≤ labels.length) :
    (predict_svm dataframe labels
        (pipeStore fs ++ StoreRecord.obj (Record.other s) :: rest)).1 =
      PredictResult.pickleError := by
  simp only [predict_svm, openFile]
  exact predictLoop_badRecord dataframe.premise labels s rest fs 0 []
    (by omega)

theorem claim_C1_witness :
    ([fun _ => 0] : List (String → Int)).length ≤
      (["a", "b"] : List String).length ∧
    (predict_svm ⟨["x"], fun _ => []⟩ ["a", "b"]
        (pipeStore [fun _ => 0] ++
          StoreRecord.obj (Record.other "boom") :: [StoreRecord.corrupt])).1 =
      PredictResult.pickleError :=
  ⟨by decide, claim_C1 ⟨["x"], fun _ => []⟩ ["a", "b"] [fun _ => 0] "boom"
    [StoreRecord.corrupt] (by decide)⟩

/-- C1 counterexample: a store that does contain a non-model record (a plain
string at position 2) on which `predict_svm` raises `IndexError`, not the
untrusted-content `PickleError` — the two valid pipelines before it exhaust
the single label, so the `labels[i]` lookup fails before the bad record is
ever examined. -/
theorem claim_C1_counterexample :
    (predict_svm ⟨["x"], fun _ => []⟩ ["a"]
        [StoreRecord.obj (Record.pipeline (fun _ => 0)),
         StoreRecord.obj (Record.pipeline (fun _ => 0)),
         StoreRecord.obj (Record.other "boom")]).1 =
      PredictResult.indexError ∧
    PredictResult.indexError ≠ PredictResult.pickleError := by
  constructor
  · rfl
  · intro h
    exact PredictResult.noConfusion h

/-- C3: when the store holds exactly `len(labels)` valid models, `predict_svm`
returns a table whose columns are exactly the labels, in `labels` order, and
every column is a real (non-NaN) prediction column with as many rows as the
input dataset has, each row produced from the corresponding input row. -/
theorem claim_C3 (dataframe : DataFrame) (labels : List String)
    (fs : List (String → Int)) (h : fs.length = labels.length) :
    ∃ t, (predict_svm dataframe labels (pipeStore fs)).1 =
        PredictResult.ok t ∧
      t.map Prod.fst = labels ∧
      ∀ p ∈ t, ∃ c, p.2 = some c ∧ c.length = dataframe.premise.length := by
  refine ⟨labels.map (fun l =>
    (l, dictLookup (buildDict dataframe.premise labels fs 0 []) l)),
    ?_, by rw [List.map_map]; exact List.map_id labels, ?_⟩
  · simp only [predict_svm, openFile]
    exact predictLoop_pipes dataframe.premise labels fs 0 [] (by omega)
  · intro p hp
    simp only [List.mem_map] at hp
    obtain ⟨l, hl, rfl⟩ := hp
    obtain ⟨⟨j, hj⟩, hget⟩ := List.mem_iff_get.mp hl
    have hsome : (dictLookup (buildDict dataframe.premise labels fs 0 [])
        l).isSome := by
      rw [← hget]
      exact buildDict_covers dataframe.premise labels fs 0 [] j hj
        (Nat.zero_le j) (by omega)
    obtain ⟨c, hc⟩ := Option.isSome_iff_exists.mp hsome
    refine ⟨c, hc, ?_⟩
    refine buildDict_length_inv dataframe.premise labels fs 0 [] ?_ l c hc
    intro k c2 h2
    simp [dictLookup] at h2

theorem claim_C3_witness :
    ([fun _ => 7] : List (String → Int)).length =
      (["a"] : List String).length ∧
    ∃ t, (predict_svm ⟨["x", "y"], fun _ => []⟩ ["a"]
        (pipeStore [fun _ => 7])).1 = PredictResult.ok t ∧
      t.map Prod.fst = ["a"] ∧
      ∀ p ∈ t, ∃ c, p.2 = some c ∧
        c.length = (⟨["x", "y"], fun _ => []⟩ : DataFrame).premise.length :=
  ⟨by decide, claim_C3 ⟨["x", "y"], fun _ => []⟩ ["a"] [fun _ => 7]
    (by decide)⟩

/-- C8: when the store holds fewer valid models than there are labels, the
length mismatch is not reported as an error — iteration stops at the end of
the codec's sequence, a table with one column slot per label is still
returned, and (for a duplicate-free Label Set, as §3 defines it) every label
position beyond the number of stored models carries no predictions (a NaN
column, `none`). -/
theorem claim_C8 (dataframe : DataFrame) (labels : List String)
    (fs : List (String → Int)) (h : fs.length ≤ labels.length) :
    ∃ t, (predict_svm dataframe labels (pipeStore fs)).1 =
        PredictResult.ok t ∧
      t.length = labels.length ∧
      (labels.Nodup → ∀ (n : Nat) (hn : n < labels.length), fs.length ≤ n →
        t[n]? = some (labels.get ⟨n, hn⟩, none)) := by
  refine ⟨labels.map (fun l =>
    (l, dictLookup (buildDict dataframe.premise labels fs 0 []) l)),
    ?_, by simp, ?_⟩
  · simp only [predict_svm, openFile]
    exact predictLoop_pipes dataframe.premise labels fs 0 [] (by omega)
  · intro hnd n hn hfsn
    have hnone : dictLookup (buildDict dataframe.premise labels fs 0 [])
        (labels.get ⟨n, hn⟩) = none := by
      rw [buildDict_lookup_out dataframe.premise labels fs 0 []
        (labels.get ⟨n, hn⟩) ?_]
      · rfl
      · intro j hj h1 h2 hcon
        have hval : j = n := congrArg Fin.val (hnd.get_inj_iff.mp hcon)
        omega
    have hg : labels.get ⟨n, hn⟩ = labels[n] := rfl
    rw [hg] at hnone
    rw [List.getElem?_map, List.getElem?_eq_getElem hn]
    simp [hnone]

theorem claim_C8_witness :
    ([fun _ => 7] : List (String → Int)).length ≤
      (["a", "b"] : List String).length ∧
    ∃ t, (predict_svm ⟨["x"], fun _ => []⟩ ["a", "b"]
        (pipeStore [fun _ => 7])).1 = PredictResult.ok t ∧
      t.length = (["a", "b"] : List String).length ∧
      ((["a", "b"] : List String).Nodup →
        ∀ (n : Nat) (hn : n < (["a", "b"] : List String).length),
          ([fun _ => 7] : List (String → Int)).length ≤ n →
          t[n]? = some ((["a", "b"] : List String).get ⟨n, hn⟩, none)) :=
  ⟨by decide, claim_C8 ⟨["x"], fun _ => []⟩ ["a", "b"] [fun _ => 7]
    (by decide)⟩

/-! Train-side lemmas. -/

theorem trainLoop_file (fit : List String → List Int → (String → Int))
    (f1s : List Int → List Int → Rat) (tr : DataFrame)
    (te : Option DataFrame) :
    ∀ (ls : List String) (scores : List (String × Rat)) (f : ModelFile),
      (trainLoop fit f1s tr te ls scores f).2 =
        f ++ ls.map (fun l =>
          StoreRecord.obj (Record.pipeline (fit tr.premise (tr.col l)))) := by
  intro ls
  induction ls with
  | nil => intro scores f; simp [trainLoop]
  | cons l rest ih =>
    intro scores f
    cases te with
    | none => simp [trainLoop, pickleDump, ih]
    | some t => simp [trainLoop, pickleDump, ih]

theorem trainLoop_scores_none (fit : List String → List Int → (String → Int))
    (f1s : List Int → List Int → Rat) (tr : DataFrame) :
    ∀ (ls : List String) (scores : List (String × Rat)) (f : ModelFile),
      (trainLoop fit f1s tr none ls scores f).1 = scores := by
  intro ls
  induction ls with
  | nil => intro scores f; simp [trainLoop]
  | cons l rest ih => intro scores f; simp [trainLoop, ih]

theorem trainLoop_scores_some (fit : List String → List Int → (String → Int))
    (f1s : List Int → List Int → Rat) (tr : DataFrame) (t : DataFrame) :
    ∀ (ls : List String) (scores : List (String × Rat)) (f : ModelFile),
      ls.Nodup → (∀ l ∈ ls, dictLookup scores l = none) →
      (trainLoop fit f1s tr (some t) ls scores f).1 =
        scores ++ ls.map (fun l =>
          (l, round2 (f1s (t.col l) (t.premise.map (fit tr.premise
            (tr.col l)))))) := by
  intro ls
  induction ls with
  | nil => intro scores f _ _; simp [trainLoop]
  | cons l rest ih =>
    intro scores f hnd hfresh
    have hfl : dictLookup scores l = none := hfresh l (List.mem_cons_self l rest)
    have hnotin : l ∉ rest := (List.nodup_cons.mp hnd).1
    have hnd2 : rest.Nodup := (List.nodup_cons.mp hnd).2
    have hfresh2 : ∀ l2 ∈ rest,
        dictLookup (scores ++ [(l, round2 (f1s (t.col l)
          (t.premise.map (fit tr.premise (tr.col l)))))]) l2 = none := by
      intro l2 hl2
      rw [dictLookup_append_none scores _ l2
        (hfresh l2 (List.mem_cons_of_mem l hl2))]
      have hne : ¬ l = l2 := fun hh => hnotin (hh ▸ hl2)
      simp [dictLookup, hne]
    simp only [trainLoop]
    rw [dictInsert_fresh scores l _ hfl, ih _ _ hnd2 hfresh2]
    simp

/-- C4: training without a validation dataset returns nothing (`none`, not an
empty mapping); training with one returns a Score Report holding exactly
`len(labels) + 1` entries — one per (distinct, non-reserved) label plus the
`avg-f1-score` entry. -/
theorem claim_C4 (fit : List String → List Int → (String → Int))
    (f1s : List Int → List Int → Rat) (tr te : DataFrame)
    (labels : List String) (file : ModelFile) (_hne : labels ≠ [])
    (hnd : labels.Nodup) (havg : "avg-f1-score" ∉ labels) :
    (train_svm fit f1s tr labels file none).1 = none ∧
    ∃ r, (train_svm fit f1s tr labels file (some te)).1 = some r ∧
      r.length = labels.length + 1 := by
  constructor
  · rfl
  · have hS := trainLoop_scores_some fit f1s tr te labels []
      (openFile Mode.wb file) hnd (fun l _ => rfl)
    refine ⟨_, rfl, ?_⟩
    show (dictInsert (trainLoop fit f1s tr (some te) labels []
      (openFile Mode.wb file)).1 "avg-f1-score" _).length = labels.length + 1
    rw [hS]
    simp only [List.nil_append]
    rw [dictInsert_fresh _ "avg-f1-score" _
      (dictLookup_map_none labels _ "avg-f1-score" havg)]
    simp

theorem claim_C4_witness :
    (["a", "b"] : List String) ≠ [] ∧ (["a", "b"] : List String).Nodup ∧
    "avg-f1-score" ∉ (["a", "b"] : List String) ∧
    ((train_svm (fun _ _ => fun _ => 0) (fun _ _ => 0)
        ⟨["t"], fun _ => [0]⟩ ["a", "b"] [] none).1 = none ∧
      ∃ r, (train_svm (fun _ _ => fun _ => 0) (fun _ _ => 0)
          ⟨["t"], fun _ => [0]⟩ ["a", "b"] [] (some ⟨["u"], fun _ => [1]⟩)).1 =
            some r ∧
        r.length = (["a", "b"] : List String).length + 1) :=
  ⟨by decide, by decide, by decide,
    claim_C4 (fun _ _ => fun _ => 0) (fun _ _ => 0) ⟨["t"], fun _ => [0]⟩
      ⟨["u"], fun _ => [1]⟩ ["a", "b"] [] (by decide) (by decide) (by decide)⟩

/-- C5: with validation requested, the Score Report maps each label to its F1
score rounded to 2 decimals, and the `avg-f1-score` entry is the arithmetic
mean of the recorded (already rounded) per-label scores, itself rounded to 2
decimals. -/
theorem claim_C5 (fit : List String → List Int → (String → Int))
    (f1s : List Int → List Int → Rat) (tr te : DataFrame)
    (labels : List String) (file : ModelFile)
    (hnd : labels.Nodup) (havg : "avg-f1-score" ∉ labels) :
    ∃ r, (train_svm fit f1s tr labels file (some te)).1 = some r ∧
      (∀ l ∈ labels, dictLookup r l = some (round2 (f1s (te.col l)
        (te.premise.map (fit tr.premise (tr.col l)))))) ∧
      dictLookup r "avg-f1-score" = some (round2 (npMean (labels.map
        (fun l => round2 (f1s (te.col l)
          (te.premise.map (fit tr.premise (tr.col l)))))))) := by
  have hS := trainLoop_scores_some fit f1s tr te labels []
    (openFile Mode.wb file) hnd (fun l _ => rfl)
  refine ⟨_, rfl, ?_, ?_⟩
  · intro l hl
    show dictLookup (dictInsert (trainLoop fit f1s tr (some te) labels []
      (openFile Mode.wb file)).1 "avg-f1-score" _) l = _
    rw [dictLookup_dictInsert_ne _ "avg-f1-score" l _
      (fun hh => havg (hh ▸ hl))]
    rw [hS]
    simp only [List.nil_append]
    exact dictLookup_map_self labels _ l hl
  · show dictLookup (dictInsert (trainLoop fit f1s tr (some te) labels []
      (openFile Mode.wb file)).1 "avg-f1-score"
        (round2 (npMean (((trainLoop fit f1s tr (some te) labels []
          (openFile Mode.wb file)).1).map Prod.snd)))) "avg-f1-score" = _
    rw [dictLookup_dictInsert_self, hS]
    simp only [List.nil_append, List.map_map]
    rfl

theorem claim_C5_witness :
    (["a", "b"] : List String).Nodup ∧
    "avg-f1-score" ∉ (["a", "b"] : List String) ∧
    ∃ r, (train_svm (fun _ _ => fun _ => 0)
        (fun y _ => if y = [0] then (4 : Rat)/5 else (3 : Rat)/5)
        ⟨["t"], fun _ => [0]⟩ ["a", "b"] []
        (some ⟨["u"], fun l => if l = "a" then [0] else [1]⟩)).1 = some r ∧
      dictLookup r "a" = some ((4 : Rat)/5) ∧
      dictLookup r "b" = some ((3 : Rat)/5) ∧
      dictLookup r "avg-f1-score" = some ((7 : Rat)/10) := by
  refine ⟨by decide, by decide, ?_⟩
  obtain ⟨r, hr, hl, ha⟩ := claim_C5 (fun _ _ => fun _ => 0)
    (fun y _ => if y = [0] then (4 : Rat)/5 else (3 : Rat)/5)
    ⟨["t"], fun _ => [0]⟩ ⟨["u"], fun l => if l = "a" then [0] else [1]⟩
    ["a", "b"] [] (by decide) (by decide)
  refine ⟨r, hr, ?_, ?_, ?_⟩
  · rw [hl "a" (by decide)]
    norm_num [round2, round_eq]
  · rw [hl "b" (by decide)]
    norm_num [round2, round_eq, (by decide : ¬("b" : String) = "a")]
  · rw [ha]
    norm_num [round2, round_eq, npMean, (by decide : ¬("b" : String) = "a")]

/-- C6: store-order invariant — after training, the Nth record in the store is
the pipeline fitted against the Nth label (training iterates the labels in
order, dumping each fitted pipeline immediately), and prediction pairs the
i-th model read back from that store with the i-th entry of the same label
list, so each label's output column comes from the model trained for it. -/
theorem claim_C6 (fit : List String → List Int → (String → Int))
    (f1s : List Int → List Int → Rat) (tr df : DataFrame)
    (labels : List String) (file : ModelFile) (test : Option DataFrame) :
    (train_svm fit f1s tr labels file test).2 = labels.map (fun l =>
      StoreRecord.obj (Record.pipeline (fit tr.premise (tr.col l)))) ∧
    (labels.Nodup → ∀ (n : Nat) (hn : n < labels.length),
      ∃ t, (predict_svm df labels
          ((train_svm fit f1s tr labels file test).2)).1 =
        PredictResult.ok t ∧
      t[n]? = some (labels.get ⟨n, hn⟩,
        some (df.premise.map (fit tr.premise (tr.col (labels.get ⟨n, hn⟩)))))) := by
  have hstore : (train_svm fit f1s tr labels file test).2 =
      labels.map (fun l =>
        StoreRecord.obj (Record.pipeline (fit tr.premise (tr.col l)))) := by
    cases test with
    | none =>
      show (trainLoop fit f1s tr none labels [] (openFile Mode.wb file)).2 = _
      rw [trainLoop_file]
      simp [openFile]
    | some t =>
      show (trainLoop fit f1s tr (some t) labels []
        (openFile Mode.wb file)).2 = _
      rw [trainLoop_file]
      simp [openFile]
  refine ⟨hstore, ?_⟩
  intro hnd n hn
  rw [hstore]
  have hsp : labels.map (fun l =>
      StoreRecord.obj (Record.pipeline (fit tr.premise (tr.col l)))) =
      pipeStore (labels.map (fun l => fit tr.premise (tr.col l))) := by
    simp [pipeStore, List.map_map]
  rw [hsp]
  refine ⟨labels.map (fun l => (l, dictLookup (buildDict df.premise labels
    (labels.map (fun l => fit tr.premise (tr.col l))) 0 []) l)), ?_, ?_⟩
  · simp only [predict_svm, openFile]
    exact predictLoop_pipes df.premise labels _ 0 [] (by simp)
  · have hn2 : n < (labels.map (fun l => fit tr.premise (tr.col l))).length :=
      by simpa using hn
    have htl : ((labels.map (fun l =>
        fit tr.premise (tr.col l))).take n).length = n := by
      rw [List.length_take]
      exact Nat.min_eq_left (Nat.le_of_lt hn2)
    have hdec : labels.map (fun l => fit tr.premise (tr.col l)) =
        (labels.map (fun l => fit tr.premise (tr.col l))).take n ++
          (labels.map (fun l => fit tr.premise (tr.col l)))[n] ::
            (labels.map (fun l => fit tr.premise (tr.col l))).drop (n + 1) := by
      conv_lhs => rw [← List.take_append_drop n
        (labels.map (fun l => fit tr.premise (tr.col l)))]
      rw [List.drop_eq_getElem_cons hn2]
    have hj0 : 0 + ((labels.map (fun l =>
        fit tr.premise (tr.col l))).take n).length < labels.length := by
      rw [htl]; simpa using hn
    have hb0 : 0 + ((labels.map (fun l =>
        fit tr.premise (tr.col l))).take n).length +
          ((labels.map (fun l =>
            fit tr.premise (tr.col l))).drop (n + 1)).length + 1 ≤
        labels.length := by
      rw [htl, List.length_drop]
      simp
      omega
    have hget := buildDict_get df.premise labels hnd
      ((labels.map (fun l => fit tr.premise (tr.col l))).take n)
      ((labels.map (fun l => fit tr.premise (tr.col l)))[n])
      ((labels.map (fun l => fit tr.premise (tr.col l))).drop (n + 1))
      0 [] hj0 hb0
    rw [← hdec] at hget
    have hkey : labels.get ⟨0 + ((labels.map (fun l =>
        fit tr.premise (tr.col l))).take n).length, hj0⟩ =
        labels.get ⟨n, hn⟩ :=
      get_congr labels _ n hj0 hn (by rw [htl]; omega)
    rw [hkey] at hget
    have hgn : (labels.map (fun l => fit tr.premise (tr.col l)))[n] =
        fit tr.premise (tr.col (labels.get ⟨n, hn⟩)) := by
      rw [List.getElem_map]
      rfl
    rw [hgn] at hget
    rw [List.getElem?_map, List.getElem?_eq_getElem hn]
    have hg2 : labels.get ⟨n, hn⟩ = labels[n] := rfl
    rw [hg2] at hget
    simp [hget]

theorem claim_C6_witness :
    (["a", "b"] : List String).Nodup ∧ 0 < (["a", "b"] : List String).length ∧
    ∃ t, (predict_svm ⟨["x"], fun _ => []⟩ ["a", "b"]
        ((train_svm (fun _ _ => fun _ => 5) (fun _ _ => 0)
          ⟨["t"], fun _ => [0]⟩ ["a", "b"] [] none).2)).1 =
      PredictResult.ok t ∧
    t[0]? = some (("a" : String), some [5]) := by
  refine ⟨by decide, by decide, ?_⟩
  obtain ⟨t, ht, hentry⟩ := (claim_C6 (fun _ _ => fun _ => 5) (fun _ _ => 0)
    ⟨["t"], fun _ => [0]⟩ ⟨["x"], fun _ => []⟩ ["a", "b"] [] none).2
    (by decide) 0 (by decide)
  exact ⟨t, ht, hentry⟩
